import Mathlib

/-!
Verification development for the legal-filing intake form.

Shallow embedding of the wizard logic in `src/src/App.tsx`, the debounced
analyzer in `src/src/components/FormSection.tsx`, the upload / speech
handlers in `src/src/components/FileUpload.tsx`, and the guidance client in
`src/src/services/azure-openai.ts`.  JavaScript strings become `String`,
objects keyed by field id become association lists (`List (String × _)`,
first occurrence wins on lookup, spread-update overwrites in place), `File`
objects become an explicit handle carrying name and size, and a function
that can throw becomes `Except String _`.
-/

namespace Legal

/-- A form value: either a text string or an uploaded file handle
(`FormData` values in `src/src/types` are `string | File`). -/
inductive Value where
  | str (s : String)
  | file (name : String) (size : Nat)
deriving DecidableEq, Repr

/-- Type `FormData`: mapping from field identifier to value, as an association
list; JavaScript object semantics (unique keys, first/only binding wins). -/
abbrev FormData := List (String × Value)

/-- Type `ValidationErrors`: mapping from field identifier to message. -/
abbrev ValidationErrors := List (String × String)

/-- Object property read `obj[k]` (first binding of `k`, if any). -/
def getV (fd : FormData) (k : String) : Option Value :=
  (fd.find? (fun p => p.1 == k)).map (·.2)

/-- JavaScript spread-update `{...prev, [id]: value}`: overwrite the existing
binding in place, otherwise append. -/
def upsertV (fd : FormData) (k : String) (v : Value) : FormData :=
  if fd.any (fun p => p.1 == k) then
    fd.map (fun p => if p.1 == k then (p.1, v) else p)
  else fd ++ [(k, v)]

/-- One `FieldSpec` from `formSections` in `src/src/App.tsx`.  Display-only
members (label, tooltip, type, option list, the unused per-field
`validation` pattern) do not enter the validation logic and are omitted. -/
structure FormField where
  id : String
  required : Bool
deriving DecidableEq, Repr

/-- One entry of `formSections`. -/
structure FormSectionT where
  title : String
  fields : List FormField
deriving DecidableEq, Repr

/-- Section `formSections[0]`: Personal Information. -/
def personalSection : FormSectionT :=
  { title := "Personal Information"
    fields := [⟨"name", true⟩, ⟨"dob", true⟩, ⟨"address", true⟩, ⟨"idProof", true⟩] }

/-- Section `formSections[1]`: Case Information. -/
def caseSection : FormSectionT :=
  { title := "Case Information"
    fields := [⟨"caseType", true⟩, ⟨"caseDescription", true⟩, ⟨"supportingDocs", true⟩] }

/-- The static `formSections` array: exactly two data-entry sections. -/
def formSections : List FormSectionT := [personalSection, caseSection]

/-- The `steps` array: four wizard stages. -/
def steps : List String := ["Personal Info", "Case Details", "Review", "Submit"]

/-- The review step index, `steps.length - 2`: the only call site of the
submit handler (the Submit button renders when `currentStep === steps.length - 2`). -/
def reviewStepIndex : Nat := steps.length - 2

/-- The regex `/^[a-zA-Z\s]+$/` of `formSchema.shape.name`. -/
def nameRegexOk (s : String) : Bool :=
  s.length > 0 && s.toList.all (fun c => c.isAlpha || c.isWhitespace)

/-- Message `'This field is required'`, the message of the missing-required path. -/
def requiredMsg : String := "This field is required"

/-- The issues `formSchema.shape[id].parse v` would report, in zod's check
order (a chained `z.string().min`, `.max`, `.regex` reports every failing
check; `z.instanceof(File)` reports its custom message on a non-File). -/
def zodIssues (id : String) (v : Option Value) : List String :=
  match v with
  | none => ["Required"]
  | some (.file _ _) =>
    match id with
    | "idProof" => []
    | "supportingDocs" => []
    | _ => ["Expected string, received object"]
  | some (.str s) =>
    match id with
    | "name" =>
      (if s.length < 2 then ["String must contain at least 2 character(s)"] else [])
        ++ (if s.length > 50 then ["String must contain at most 50 character(s)"] else [])
        ++ (if nameRegexOk s then [] else ["Invalid"])
    | "dob" => if s.length < 1 then ["Date of birth is required"] else []
    | "address" => if s.length < 10 then ["Please enter a complete address"] else []
    | "idProof" => ["Identity proof is required"]
    | "caseType" => if s.length < 1 then ["Please select a case type"] else []
    | "caseDescription" => if s.length < 50 then ["Please provide a detailed description"] else []
    | "supportingDocs" => ["Supporting documents are required"]
    | _ => []

/-- Assignment `acc[k] = msg` on a JavaScript object: overwrite in place or append. -/
def upsertErr (m : ValidationErrors) (k msg : String) : ValidationErrors :=
  if m.any (fun p => p.1 == k) then
    m.map (fun p => if p.1 == k then (p.1, msg) else p)
  else m ++ [(k, msg)]

/-- The reduce `error.errors.reduce((acc, err) => {acc[err.path[0]] = err.message ...}, {})`:
fold the issue list into an object, later issues for a field overwriting
earlier ones. -/
def collapse (issues : List (String × String)) : ValidationErrors :=
  issues.foldl (fun m p => upsertErr m p.1 p.2) []

/-- JavaScript truthiness test `!currentData[field]`: absent or empty
string is missing, any `File` and any non-empty string is present. -/
def isMissing (v : Option Value) : Bool :=
  match v with
  | none => true
  | some (.str s) => s == ""
  | some (.file _ _) => false

/-- The error message of the out-of-range crash: `formSections[currentStep]`
is `undefined`, so reading `.fields` throws a `TypeError`. -/
def crashMsg : String := "TypeError: cannot read fields of undefined"

/-- Function `validateStep` from `src/src/App.tsx` (lines 159-203).  The result, when
it does not throw, is the returned pass/fail flag together with the
`ValidationErrors` value passed to `setErrors` (`none` when `setErrors` is
not called, i.e. on the success path). -/
def validateStep (step : Nat) (fd : FormData) :
    Except String (Bool × Option ValidationErrors) :=
  match formSections.get? step with
  | none => .error crashMsg
  | some sec =>
    let currentFields := sec.fields.map (·.id)
    let currentData := fd.filter (fun p => currentFields.contains p.1)
    let requiredFields := (sec.fields.filter (·.required)).map (·.id)
    let missingFields := requiredFields.filter (fun f => isMissing (getV currentData f))
    if missingFields.isEmpty then
      let issues := currentFields.flatMap
        (fun f => (zodIssues f (getV currentData f)).map (fun m => (f, m)))
      if issues.isEmpty then .ok (true, none)
      else .ok (false, some (collapse issues))
    else .ok (false, some (missingFields.map (fun f => (f, requiredMsg))))

/-- Application status record (`src/src/types`). -/
inductive StatusKind where
  | pending | reviewing | approved | rejected
deriving DecidableEq, Repr

structure ApplicationStatus where
  id : String
  status : StatusKind
  lastUpdated : String
  comments : String
deriving DecidableEq, Repr

/-- The initial status state of `App` (timestamp taken at mount). -/
def initialStatus (now : String) : ApplicationStatus :=
  ⟨"123", .pending, now, "Your application is being processed."⟩

/-- The state owned by `App`: form values, step index, errors, status. -/
structure AppState where
  formData : FormData
  currentStep : Nat
  errors : ValidationErrors
  status : ApplicationStatus
deriving DecidableEq, Repr

/-- Handler `handleInputChange`: upsert the value and delete that field's error. -/
def handleInputChange (s : AppState) (id : String) (v : Value) : AppState :=
  { s with
    formData := upsertV s.formData id v
    errors := s.errors.filter (fun p => !(p.1 == id)) }

/-- Run `validateStep` on the current state and apply its `setErrors` side
effect, returning the pass/fail flag alongside the updated state. -/
def applyValidate (s : AppState) : Except String (Bool × AppState) :=
  (validateStep s.currentStep s.formData).map
    (fun r => (r.1, { s with errors := r.2.getD s.errors }))

/-- Handler `handleNext`: on pass, step to `min (step+1) (steps.length-1)` and clear
errors; on fail, keep step (errors were replaced inside `validateStep`). -/
def handleNext (s : AppState) : Except String AppState :=
  (applyValidate s).map (fun p =>
    if p.1 then
      { p.2 with currentStep := min (p.2.currentStep + 1) (steps.length - 1), errors := [] }
    else p.2)

/-- Handler `handleSubmit` (lines 217-230): on pass, set status to reviewing with a
fresh timestamp and new comment and force the step to the terminal status
step; on fail, no change beyond the errors written by `validateStep`. -/
def handleSubmit (s : AppState) (now : String) : Except String AppState :=
  (applyValidate s).map (fun p =>
    if p.1 then
      { p.2 with
        status := ⟨"123", .reviewing, now, "Your application is under review."⟩
        currentStep := steps.length - 1 }
    else p.2)

/-! ### Debounced analyzer (`src/src/components/FormSection.tsx`, lines 29-47)

The effect runs on every change of `formData.caseDescription`: React first
runs the previous effect's cleanup (`clearTimeout`, cancelling the pending
timer), then the body, which arms a fresh 1000 ms timer only when
`caseDescription && caseDescription.length > 50`.  When a timer elapses it
fires one guidance request for the text captured at arming time. -/

/-- The arming guard `caseDescription && caseDescription.length > 50`
(JavaScript truthiness: the empty string is falsy). -/
def debounceArms (t : String) : Bool :=
  (t != "") && decide (50 < t.length)

/-- Debounce state: the text of the pending (armed, not yet elapsed)
timer, if any. -/
structure DebounceState where
  pending : Option String
deriving DecidableEq, Repr

/-- An edit to the description: cleanup cancels any pending timer, then the
effect body arms a new one iff the guard holds for the new text. -/
def editEvent (_s : DebounceState) (t : String) : DebounceState :=
  ⟨if debounceArms t then some t else none⟩

/-- The pending timer elapses: fire one request for its captured text. -/
def elapseEvent (s : DebounceState) : DebounceState × List String :=
  (⟨none⟩, match s.pending with | some t => [t] | none => [])

/-- An event of the debounce timeline: a description edit, or enough quiet
time passing for the armed timer (if any) to elapse. -/
inductive DEvent where
  | edit (t : String)
  | elapse
deriving DecidableEq, Repr

/-- Run a timeline of events, collecting the guidance requests fired. -/
def runEvents (s : DebounceState) : List DEvent → DebounceState × List String
  | [] => (s, [])
  | .edit t :: rest => runEvents (editEvent s t) rest
  | .elapse :: rest =>
    let p := elapseEvent s
    let q := runEvents p.1 rest
    (q.1, p.2 ++ q.2)

/-! ### Guidance client (`src/src/services/azure-openai.ts`, lines 26-81) -/

/-- The `LegalGuidance` payload. -/
structure LegalGuidance where
  explanation : String
  requirements : List String
  suggestions : List String
deriving DecidableEq, Repr

/-- The unconfigured payload (lines 28-32). -/
def unavailableGuidance : LegalGuidance :=
  ⟨"AI analysis is currently unavailable. Please proceed with your application.", [], []⟩

/-- The catch-all fallback payload (lines 75-79). -/
def errorFallbackGuidance : LegalGuidance :=
  ⟨"Unable to analyze the case at this moment. Please continue with your application.", [], []⟩

/-- Outcome of the external `getChatCompletions` call: a transport/service
throw, or a response whose first choice content is absent or present. -/
inductive ServiceOutcome where
  | throwErr
  | ok (content : Option String)
deriving DecidableEq, Repr

/-- Outcome of `JSON.parse` on the guidance text: not JSON, or an object
with possibly-absent (or falsy) fields. -/
inductive ParseOutcome where
  | notJson
  | json (explanation : Option String) (requirements : Option (List String))
      (suggestions : Option (List String))
deriving DecidableEq, Repr

/-- The body of the `try` block of `analyzeCaseDescription`: may throw
(service error, or the explicit `throw` when no content came back). -/
def analyzeBody (outcome : ServiceOutcome) (parse : String → ParseOutcome) :
    Except String LegalGuidance :=
  match outcome with
  | .throwErr => .error "Azure OpenAI request failed"
  | .ok none => .error "No guidance received from Azure OpenAI"
  | .ok (some guidance) =>
    match parse guidance with
    | .notJson => .ok ⟨guidance, [], []⟩
    | .json e r s => .ok ⟨e.getD "", r.getD [], s.getD []⟩

/-- Function `analyzeCaseDescription`: unconfigured (or client construction failed)
returns the unavailable payload; otherwise the body runs under a catch that
converts any throw into the fallback payload.  The `Except` result records
whether an exception escapes to the caller. -/
def analyzeCaseDescription (configured hasClient : Bool)
    (outcome : ServiceOutcome) (parse : String → ParseOutcome)
    (_description : String) : Except String LegalGuidance :=
  if !configured || !hasClient then .ok unavailableGuidance
  else
    match analyzeBody outcome parse with
    | .ok g => .ok g
    | .error _ => .ok errorFallbackGuidance

/-! ### The analyzer's state writes (`FormSection.tsx`, lines 32-41)

`analyzeCase` sets `isAnalyzing` true, awaits the client, writes the result
into `aiGuidance` on success, and in all cases finally resets
`isAnalyzing`.  Each in-flight call applies its own continuation when its
response arrives, with no staleness check, so completions of overlapping
calls interleave freely. -/

/-- The `FormSection` analyzer state. -/
structure AnalyzerState where
  aiGuidance : Option LegalGuidance
  isAnalyzing : Bool
deriving DecidableEq, Repr

/-- An async completion event of some in-flight `analyzeCase` run: its
start (`setIsAnalyzing(true)`) or its settling (resolve with a guidance
value, or reject). -/
inductive AEvent where
  | start
  | settle (r : Except Unit LegalGuidance)

/-- Apply one event exactly as the source's continuations do. -/
def stepAnalyzer (st : AnalyzerState) : AEvent → AnalyzerState
  | .start => { st with isAnalyzing := true }
  | .settle (.ok g) => { aiGuidance := some g, isAnalyzing := false }
  | .settle (.error _) => { st with isAnalyzing := false }

/-- Run an interleaving of analyzer events. -/
def runAnalyzer (st : AnalyzerState) (evs : List AEvent) : AnalyzerState :=
  evs.foldl stepAnalyzer st

/-! ### Field extraction (`src/src/App.tsx`, lines 116-157)

`handleSpeechInput` lowercases and space-splits the transcript; the
keyword scan below is the path that operates directly on those transcript
tokens (exact token membership via `includes`/`indexOf`, value = join of
the tokens after the keyword, forwarded only when the token right after
the keyword position is truthy). -/

/-- The static keyword table `fieldMappings`. -/
def fieldMappings : List (String × List String) :=
  [("name", ["name", "naam", "नाम"]),
   ("address", ["address", "pata", "पता"]),
   ("caseDescription", ["case", "description", "मामला", "विवरण"])]

/-- Split a character list at every single space, keeping empty segments,
as JavaScript `split(' ')` does. -/
def splitTokens : List Char → List (List Char)
  | [] => [[]]
  | c :: rest =>
    match splitTokens rest with
    | [] => [[]]
    | tok :: toks =>
      if c = ' ' then [] :: tok :: toks else (c :: tok) :: toks

/-- Tokenization `transcript.toLowerCase().split(' ')` (consecutive spaces yield empty
tokens, the empty string yields `[""]`; lowercasing is per character, which
agrees with JavaScript on the ASCII letters the keyword table and schema
use). -/
def tokenize (t : String) : List String :=
  (splitTokens (t.data.map Char.toLower)).map String.mk

/-- Scan one keyword: first index of an exactly matching token; forward the
join of all later tokens iff the token right after it exists and is
non-empty (`words[keywordIndex + 1]` truthiness). -/
def scanKeyword (ws : List String) (kw : String) : Option String :=
  match ws.findIdx? (fun w => w == kw) with
  | none => none
  | some i =>
    match ws[i + 1]? with
    | none => none
    | some nxt =>
      if nxt == "" then none
      else some (String.intercalate " " (ws.drop (i + 1)))

/-- The sequence of `(field, value)` updates the scan forwards to
`handleInputChange`, in table order. -/
def extractUpdates (t : String) : List (String × String) :=
  let ws := tokenize t
  fieldMappings.flatMap
    (fun fm => fm.2.filterMap (fun kw => (scanKeyword ws kw).map (fun v => (fm.1, v))))

/-! ### Speech toggle (`SpeechInput` in `src/src/components/FileUpload.tsx`)

When `window.webkitSpeechRecognition` is absent the init effect never
constructs a recognition handle, so `recognition` stays `null`;
`toggleListening` then calls neither `start` nor `stop` (optional
chaining) but still flips `isListening`. -/

structure SpeechState where
  isListening : Bool
  hasRecognition : Bool
deriving DecidableEq, Repr

/-- A call made on the recognition handle. -/
inductive RecCall where
  | start | stop
deriving DecidableEq, Repr

/-- Handler `toggleListening`: `recognition?.stop()` / `recognition?.start()`, then
`setIsListening(!isListening)` unconditionally. -/
def toggleListening (s : SpeechState) : SpeechState × List RecCall :=
  ({ s with isListening := !s.isListening },
   if s.hasRecognition then [if s.isListening then RecCall.stop else RecCall.start] else [])

/-! ### File upload (`src/src/components/FileUpload.tsx`, lines 15-45) -/

/-- An uploaded file handle. -/
structure FileV where
  name : String
  size : Nat
deriving DecidableEq, Repr

/-- The 10 MB limit `10 * 1024 * 1024`. -/
def maxFileSize : Nat := 10 * 1024 * 1024

/-- Handler `handleDrop`: first dropped file, forwarded to `onChange` iff its size
is within the limit (otherwise only an alert is shown). -/
def handleDrop (files : List FileV) : Option FileV :=
  match files with
  | [] => none
  | f :: _ => if f.size ≤ maxFileSize then some f else none

/-- Handler `handleFileChange`: selected file (if any), forwarded to `onChange` iff
its size is within the limit. -/
def handleFileChange (file? : Option FileV) : Option FileV :=
  match file? with
  | none => none
  | some f => if f.size ≤ maxFileSize then some f else none

/-- The field update a drop causes: `onChange` is wired to
`onInputChange(field.id, file)` in `FormSection`. -/
def processDrop (s : AppState) (id : String) (files : List FileV) : AppState :=
  match handleDrop files with
  | some f => handleInputChange s id (.file f.name f.size)
  | none => s

/-- The field update a file-input change causes. -/
def processFileChange (s : AppState) (id : String) (file? : Option FileV) : AppState :=
  match handleFileChange file? with
  | some f => handleInputChange s id (.file f.name f.size)
  | none => s

/-! ### Concrete data used by witnesses and counterexamples -/

/-- A complete, schema-valid Case Information entry. -/
def fdCaseComplete : FormData :=
  [("caseType", .str "Civil Case"),
   ("caseDescription", .str "Property boundary dispute with my neighbour over the back fence line."),
   ("supportingDocs", .file "docs.pdf" 5)]

/-- The settled text used by the C5 witness (51 characters). -/
def longDescription : String := String.mk (List.replicate 51 'a')

/-- Guidance payloads used to exhibit the stale-overwrite interleaving. -/
def firstGuidance : LegalGuidance := ⟨"guidance for the first draft", [], []⟩

def secondGuidance : LegalGuidance := ⟨"guidance for the second draft", [], []⟩

/-! ### Spec-side views of the validator -/

/-- The required field ids of a section. -/
def sectionRequiredIds (sec : FormSectionT) : List String :=
  (sec.fields.filter (·.required)).map (·.id)

/-- The required fields of a section that are missing (absent or empty) in
the form data. -/
def missingIds (sec : FormSectionT) (fd : FormData) : List String :=
  (sectionRequiredIds sec).filter (fun f => isMissing (getV fd f))

/-- The `(field, message)` issues the step schema reports against the form
data, in schema key order. -/
def issuesOf (sec : FormSectionT) (fd : FormData) : List (String × String) :=
  (sec.fields.map (·.id)).flatMap
    (fun f => (zodIssues f (getV fd f)).map (fun m => (f, m)))

/-- The field ids of a section whose schema checks fail on the form data. -/
def failingIds (sec : FormSectionT) (fd : FormData) : List String :=
  (sec.fields.map (·.id)).filter (fun f => !(zodIssues f (getV fd f)).isEmpty)

/-! ### Helper lemmas -/

lemma contains_of_mem {ks : List String} {k : String} (h : k ∈ ks) :
    ks.contains k = true :=
  List.elem_iff.mpr h

lemma mem_of_contains {ks : List String} {k : String} (h : ks.contains k = true) :
    k ∈ ks :=
  List.elem_iff.mp h

lemma getV_cons (p : String × Value) (fd : FormData) (k : String) :
    getV (p :: fd) k = if p.1 == k then some p.2 else getV fd k := by
  unfold getV
  rw [List.find?_cons]
  cases h : p.1 == k <;> simp [h]

/-- Restricting the form data to a key set commutes with lookup. -/
lemma getV_restrict (fd : FormData) (ks : List String) (k : String) :
    getV (fd.filter (fun p => ks.contains p.1)) k =
      if ks.contains k then getV fd k else none := by
  induction fd with
  | nil => simp [getV]
  | cons p fd ih =>
    rw [List.filter_cons]
    by_cases hp : ks.contains p.1 = true
    · rw [if_pos hp, getV_cons, getV_cons]
      by_cases hpk : (p.1 == k) = true
      · have hk : p.1 = k := by simpa using hpk
        rw [if_pos hpk, if_pos (hk ▸ hp), if_pos hpk]
      · rw [if_neg hpk, if_neg hpk, ih]
    · rw [if_neg hp, ih]
      by_cases hck : ks.contains k = true
      · have hpk : (p.1 == k) = false := by
          cases hh : p.1 == k
          · rfl
          · have : p.1 = k := by simpa using hh
            exact absurd (this ▸ hck) hp
        rw [if_pos hck, if_pos hck, getV_cons, hpk, if_neg (by simp)]
      · rw [if_neg hck, if_neg hck]

lemma getV_restrict_mem (fd : FormData) (ks : List String) (k : String)
    (h : k ∈ ks) :
    getV (fd.filter (fun p => ks.contains p.1)) k = getV fd k := by
  rw [getV_restrict, if_pos (contains_of_mem h)]

lemma flatMap_congr_mem {α β : Type} (l : List α) (f g : α → List β)
    (h : ∀ a ∈ l, f a = g a) : l.flatMap f = l.flatMap g := by
  induction l with
  | nil => rfl
  | cons a l ih =>
    rw [List.flatMap_cons, List.flatMap_cons, h a (by simp),
      ih (fun a ha => h a (by simp [ha]))]

/-- Lemma: `validateStep` in range, rephrased over the spec-side views: the
internal restriction of the data to the section's fields is transparent to
every lookup the validator makes. -/
lemma validateStep_eq (step : Nat) (sec : FormSectionT) (fd : FormData)
    (h : formSections.get? step = some sec) :
    validateStep step fd =
      if (missingIds sec fd).isEmpty then
        if (issuesOf sec fd).isEmpty then .ok (true, none)
        else .ok (false, some (collapse (issuesOf sec fd)))
      else .ok (false, some ((missingIds sec fd).map (fun f => (f, requiredMsg)))) := by
  have hreq : ∀ f ∈ sectionRequiredIds sec, f ∈ sec.fields.map (·.id) := by
    intro f hf
    unfold sectionRequiredIds at hf
    rcases List.mem_map.1 hf with ⟨fl, hfl, rfl⟩
    exact List.mem_map.2 ⟨fl, (List.mem_filter.1 hfl).1, rfl⟩
  unfold validateStep
  rw [h]
  have hmiss :
      (sectionRequiredIds sec).filter
          (fun f => isMissing (getV (fd.filter (fun p => (sec.fields.map (·.id)).contains p.1)) f))
        = missingIds sec fd := by
    unfold missingIds
    exact List.filter_congr (fun f hf => by
      rw [getV_restrict_mem fd _ f (hreq f hf)])
  have hiss :
      (sec.fields.map (·.id)).flatMap
          (fun f => (zodIssues f (getV (fd.filter (fun p => (sec.fields.map (·.id)).contains p.1)) f)).map
            (fun m => (f, m)))
        = issuesOf sec fd := by
    unfold issuesOf
    exact flatMap_congr_mem _ _ _ (fun f hf => by
      rw [getV_restrict_mem fd _ f hf])
  unfold sectionRequiredIds at hmiss
  simp only [hmiss, hiss]

lemma upsertErr_fresh (m : ValidationErrors) (k msg : String)
    (h : ∀ p ∈ m, p.1 ≠ k) : upsertErr m k msg = m ++ [(k, msg)] := by
  unfold upsertErr
  rw [if_neg]
  intro hany
  rcases List.any_eq_true.1 hany with ⟨p, hp, hbeq⟩
  exact h p hp (by simpa using hbeq)

lemma upsertErr_last (acc : ValidationErrors) (f m₀ m : String)
    (h : ∀ p ∈ acc, p.1 ≠ f) :
    upsertErr (acc ++ [(f, m₀)]) f m = acc ++ [(f, m)] := by
  unfold upsertErr
  rw [if_pos (List.any_eq_true.2 ⟨(f, m₀), by simp, by simp⟩)]
  rw [List.map_append]
  congr 1
  · have hid : ∀ p ∈ acc, (if p.1 == f then (p.1, m) else p) = p := by
      intro p hp
      rw [if_neg (by simpa using h p hp)]
    calc acc.map (fun p => if p.1 == f then (p.1, m) else p)
        = acc.map id := List.map_congr_left hid
      _ = acc := List.map_id acc
  · simp

lemma foldl_block_overwrite (ms : List String) (f : String) :
    ∀ (m₀ : String) (acc : ValidationErrors), (∀ p ∈ acc, p.1 ≠ f) →
      (ms.map (fun m => (f, m))).foldl (fun m p => upsertErr m p.1 p.2) (acc ++ [(f, m₀)])
        = acc ++ [(f, ms.getLastD m₀)] := by
  induction ms with
  | nil => intro m₀ acc _; rfl
  | cons m ms ih =>
    intro m₀ acc h
    rw [List.map_cons, List.foldl_cons, List.getLastD_cons]
    show (ms.map (fun m => (f, m))).foldl (fun m p => upsertErr m p.1 p.2)
        (upsertErr (acc ++ [(f, m₀)]) f m) = _
    rw [upsertErr_last acc f m₀ m h]
    exact ih m acc h

lemma getLast?_cons_eq (m : String) (ms : List String) :
    (m :: ms).getLast? = some (ms.getLastD m) := by
  cases ms with
  | nil => rfl
  | cons b bs => rw [List.getLast?_cons_cons, getLast?_cons_eq b bs, List.getLastD_cons]

lemma foldl_block (ms : List String) (f : String) (acc : ValidationErrors)
    (h : ∀ p ∈ acc, p.1 ≠ f) :
    (ms.map (fun m => (f, m))).foldl (fun m p => upsertErr m p.1 p.2) acc
      = acc ++ (ms.getLast?.map (fun m => (f, m))).toList := by
  cases ms with
  | nil => simp
  | cons m ms =>
    rw [List.map_cons, List.foldl_cons]
    show (ms.map (fun m => (f, m))).foldl (fun m p => upsertErr m p.1 p.2)
        (upsertErr acc f m) = _
    rw [upsertErr_fresh acc f m h, foldl_block_overwrite ms f m acc h,
      getLast?_cons_eq]
    simp

/-- Folding the per-field issue blocks into the error object keeps, for
every field with issues, exactly its last issue message. -/
lemma collapse_flatMap (fields : List String) (msgs : String → List String) :
    ∀ (acc : ValidationErrors), fields.Nodup →
      (∀ f ∈ fields, ∀ p ∈ acc, p.1 ≠ f) →
      (fields.flatMap (fun f => (msgs f).map (fun m => (f, m)))).foldl
          (fun m p => upsertErr m p.1 p.2) acc
        = acc ++ fields.filterMap (fun f => ((msgs f).getLast?).map (fun m => (f, m))) := by
  induction fields with
  | nil => intro acc _ _; simp
  | cons f fs ih =>
    intro acc hnd hfresh
    rw [List.flatMap_cons, List.foldl_append,
      foldl_block (msgs f) f acc (hfresh f (by simp))]
    have hnd' := List.nodup_cons.1 hnd
    rw [ih (acc ++ ((msgs f).getLast?.map (fun m => (f, m))).toList) hnd'.2 ?fresh,
      List.filterMap_cons]
    · cases hl : (msgs f).getLast? <;> simp [hl, List.append_assoc]
    case fresh =>
      intro g hg p hp
      rcases List.mem_append.1 hp with hp | hp
      · exact hfresh g (by simp [hg]) p hp
      · cases hl : (msgs f).getLast? with
        | none => rw [hl] at hp; simp at hp
        | some m =>
          rw [hl] at hp
          simp at hp
          rw [hp]
          intro hfg
          exact hnd'.1 (by rw [show f = g from hfg]; exact hg)

/-- On a section with distinct field ids, the collapsed error object holds
exactly the failing fields, each with the last issue zod reported. -/
lemma collapse_issuesOf (sec : FormSectionT) (fd : FormData)
    (hnd : (sec.fields.map (·.id)).Nodup) :
    collapse (issuesOf sec fd)
      = (sec.fields.map (·.id)).filterMap
          (fun f => ((zodIssues f (getV fd f)).getLast?).map (fun m => (f, m))) := by
  unfold collapse issuesOf
  rw [collapse_flatMap _ _ [] hnd (by simp)]
  simp

lemma filterMap_tag_map_fst (l : List String) (g : String → Option String) :
    (l.filterMap (fun f => (g f).map (fun m => (f, m)))).map Prod.fst
      = l.filter (fun f => (g f).isSome) := by
  induction l with
  | nil => rfl
  | cons a l ih =>
    rw [List.filterMap_cons, List.filter_cons]
    cases h : g a <;> simp [h, ih]

/-- Which section a step index denotes. -/
lemma sec_cases (step : Nat) (sec : FormSectionT)
    (h : formSections.get? step = some sec) :
    sec = personalSection ∨ sec = caseSection := by
  cases step with
  | zero =>
    left
    simpa [formSections] using h.symm
  | succ n =>
    cases n with
    | zero =>
      right
      simpa [formSections] using h.symm
    | succ m => simp [formSections] at h

lemma issuesOf_eq_nil_iff (sec : FormSectionT) (fd : FormData) :
    issuesOf sec fd = [] ↔ failingIds sec fd = [] := by
  unfold issuesOf failingIds
  rw [List.flatMap_eq_nil_iff, List.filter_eq_nil_iff]
  constructor
  · intro hh f hf
    have := hh f hf
    rw [List.map_eq_nil_iff] at this
    simp [this]
  · intro hh f hf
    rw [List.map_eq_nil_iff]
    simpa using hh f hf

/-- C3 (amended): `advance()` succeeds iff every required field of the
active step is present and non-empty AND every field of the step passes its
schema checks; when a required field is missing, `ValidationErrors` is
fully replaced with exactly the missing fields (required message each) and
schema failures of other fields are suppressed; only when all required
fields are present does a failure replace `ValidationErrors` with exactly
the schema-failing field ids, at most one message per field, each field
keeping the last issue reported against it. -/
theorem validateStep_spec (step : Nat) (sec : FormSectionT) (fd : FormData)
    (h : formSections.get? step = some sec) :
    (validateStep step fd = Except.ok (true, none) ↔
      missingIds sec fd = [] ∧ failingIds sec fd = []) ∧
    (missingIds sec fd ≠ [] →
      validateStep step fd =
        Except.ok (false, some ((missingIds sec fd).map (fun f => (f, requiredMsg))))) ∧
    (missingIds sec fd = [] → failingIds sec fd ≠ [] →
      ∃ errs, validateStep step fd = Except.ok (false, some errs) ∧
        errs.map Prod.fst = failingIds sec fd ∧
        (errs.map Prod.fst).Nodup ∧
        ∀ p ∈ errs, (zodIssues p.1 (getV fd p.1)).getLast? = some p.2) := by
  have hnd : (sec.fields.map (·.id)).Nodup := by
    rcases sec_cases step sec h with rfl | rfl <;> decide
  have hv := validateStep_eq step sec fd h
  refine ⟨?_, ?_, ?_⟩
  · rw [hv]
    by_cases h1 : missingIds sec fd = []
    · by_cases h2 : issuesOf sec fd = []
      · simp [h1, h2, (issuesOf_eq_nil_iff sec fd).1 h2]
      · have h2' : failingIds sec fd ≠ [] :=
          fun hf => h2 ((issuesOf_eq_nil_iff sec fd).2 hf)
        simp [h1, h2, h2']
    · simp [h1]
  · intro hne
    rw [hv, if_neg (by simpa using hne)]
  · intro hm hf
    have h2 : issuesOf sec fd ≠ [] :=
      fun hi => hf ((issuesOf_eq_nil_iff sec fd).1 hi)
    rw [hv, if_pos (by simpa using hm), if_neg (by simpa using h2)]
    refine ⟨collapse (issuesOf sec fd), rfl, ?_, ?_, ?_⟩
    · rw [collapse_issuesOf sec fd hnd, filterMap_tag_map_fst]
      unfold failingIds
      refine List.filter_congr (fun f _ => ?_)
      cases hz : zodIssues f (getV fd f) <;> simp [hz]
    · rw [collapse_issuesOf sec fd hnd, filterMap_tag_map_fst]
      exact List.Nodup.filter _ hnd
    · intro p hp
      rw [collapse_issuesOf sec fd hnd] at hp
      rcases List.mem_filterMap.1 hp with ⟨f, _, hpf⟩
      rcases Option.map_eq_some'.1 hpf with ⟨m, hm', rfl⟩
      exact hm'

/-- C3 counterexample: with `dob` missing and `name` present but failing
its pattern (`"x1"` contains a digit), the recorded errors are exactly
`{dob}` — the failing field `name` is not reported, so the error set is not
"exactly the failing field ids". -/
theorem validateStep_missing_suppresses_pattern_cex :
    validateStep 0
        [("name", .str "x1"), ("address", .str "12 main street xy"),
         ("idProof", .file "id.pdf" 100)]
      = Except.ok (false, some [("dob", requiredMsg)]) ∧
    zodIssues "name"
        (getV [("name", .str "x1"), ("address", .str "12 main street xy"),
          ("idProof", .file "id.pdf" 100)] "name")
      = ["Invalid"] := by
  constructor <;> rfl

/-- C3 witness: the amended characterization evaluated on empty form data
at step 0 — all four required personal fields are reported missing. -/
theorem validateStep_spec_witness :
    validateStep 0 [] =
      Except.ok (false, some
        [("name", requiredMsg), ("dob", requiredMsg),
         ("address", requiredMsg), ("idProof", requiredMsg)]) := by
  have := (validateStep_spec 0 personalSection [] rfl).2.1 (by decide)
  simpa using this

/-! ### Claims about the review boundary (C1, C2) -/

/-- Array `formSections` has no entry for an out-of-range step, so `validateStep`
throws there. -/
lemma validateStep_oob (step : Nat) (fd : FormData)
    (h : formSections.length ≤ step) :
    validateStep step fd = Except.error crashMsg := by
  unfold validateStep
  rw [List.get?_eq_none.2 h]

/-- C1 (code bug): at the submit handler's only call site — the review
step, `currentStep = steps.length - 2 = 2` — `validateStep` reads
`formSections[2].fields` where `formSections` has length 2, so submission
throws a `TypeError` instead of either transitioning the status or leaving
state unchanged.  Were the same handler run at a data-entry step with valid
data, it would transition `pending → reviewing` with the fresh timestamp,
new comment and terminal step index exactly as the claim describes. -/
theorem handleSubmit_review_boundary_throws :
    (∀ (s : AppState) (now : String), s.currentStep = reviewStepIndex →
      handleSubmit s now = Except.error crashMsg) ∧
    handleSubmit ⟨fdCaseComplete, 1, [], initialStatus "t0"⟩ "t1" =
      Except.ok ⟨fdCaseComplete, 3, [],
        ⟨"123", .reviewing, "t1", "Your application is under review."⟩⟩ := by
  constructor
  · intro s now h
    have hv : validateStep s.currentStep s.formData = Except.error crashMsg := by
      rw [h]
      exact validateStep_oob _ _ (by decide)
    simp [handleSubmit, applyValidate, hv, Except.map]
  · rfl

/-- C1 witness: submitting from the review step on any state crashes. -/
theorem handleSubmit_review_boundary_throws_witness :
    handleSubmit ⟨[], 2, [], initialStatus "t0"⟩ "t1" = Except.error crashMsg :=
  handleSubmit_review_boundary_throws.1 ⟨[], 2, [], initialStatus "t0"⟩ "t1" rfl

/-- C2 (code bug): `validateStep` is not total on the reachable review step
index: there is no third `formSections` entry (no empty required-field
set), so on the review step it throws for every form data, and advancing
from the review step throws as well, contradicting the claim that the
review step passes trivially. -/
theorem validateStep_review_step_throws :
    (∀ fd : FormData, validateStep reviewStepIndex fd = Except.error crashMsg) ∧
    (∀ s : AppState, s.currentStep = reviewStepIndex →
      handleNext s = Except.error crashMsg) := by
  constructor
  · intro fd
    exact validateStep_oob _ _ (by decide)
  · intro s h
    have hv : validateStep s.currentStep s.formData = Except.error crashMsg := by
      rw [h]
      exact validateStep_oob _ _ (by decide)
    simp [handleNext, applyValidate, hv, Except.map]

/-- C2 witness: pressing Next on the review step crashes. -/
theorem validateStep_review_step_throws_witness :
    handleNext ⟨[], 2, [], initialStatus "t0"⟩ = Except.error crashMsg :=
  validateStep_review_step_throws.2 ⟨[], 2, [], initialStatus "t0"⟩ rfl

/-! ### Claims about the debounced analyzer (C4, C5, C6, C7) -/

/-- C4 (amended): when the quiet period elapses the analyzer fires exactly
one request for the settled description iff that text is strictly longer
than 50 characters; in particular a 50-character description never fires
(the gate is `length > 50`, not `≥ 50`). -/
theorem debounce_fires_iff_length_gt_fifty (s : DebounceState) (t : String) :
    (runEvents s [DEvent.edit t, DEvent.elapse]).2
        = (if 50 < t.length then [t] else []) ∧
    ((runEvents s [DEvent.edit t, DEvent.elapse]).2 = [t] ↔ 50 < t.length) := by
  by_cases h : 50 < t.length
  · have ht : (t != "") = true := by
      simp only [bne_iff_ne, ne_eq]
      intro he
      rw [he] at h
      simp at h
    have harm : debounceArms t = true := by simp [debounceArms, ht, h]
    simp [runEvents, editEvent, elapseEvent, harm, h]
  · have harm : debounceArms t = false := by simp [debounceArms, h]
    simp [runEvents, editEvent, elapseEvent, harm, h]

/-- C4 witness: a 51-character settled description does fire a request. -/
theorem debounce_fires_iff_length_gt_fifty_witness :
    (runEvents ⟨none⟩ [DEvent.edit longDescription, DEvent.elapse]).2 = [longDescription] :=
  (debounce_fires_iff_length_gt_fifty ⟨none⟩ longDescription).2.mpr (by decide)

/-- C4 counterexample: an (unchanged) description of exactly 50 characters
never triggers a request, though the claim says it does. -/
theorem debounce_exactly_fifty_no_request :
    (String.mk (List.replicate 50 'a')).length = 50 ∧
    (runEvents ⟨none⟩ [DEvent.edit (String.mk (List.replicate 50 'a')), DEvent.elapse]).2
      = [] := by
  constructor <;> rfl

/-- Consecutive edits only move the debounce state: while the quiet period
never completes, no superseded timer fires. -/
lemma runEvents_edits_consumed (es : List String) :
    ∀ (s : DebounceState) (rest : List DEvent),
      runEvents s (es.map DEvent.edit ++ rest)
        = runEvents (es.foldl editEvent s) rest := by
  induction es with
  | nil => intro s rest; rfl
  | cons e es ih => intro s rest; exact ih (editEvent s e) rest

/-- C5 (amended): for any sequence of rapid successive edits within the
quiet period, superseded timers never fire and, provided the final settled
text is longer than 50 characters, exactly one request fires, carrying the
final settled text. -/
theorem debounce_rapid_edits_single_request (s : DebounceState)
    (drafts : List String) (t : String) (h : 50 < t.length) :
    runEvents s ((drafts ++ [t]).map DEvent.edit ++ [DEvent.elapse])
      = (⟨none⟩, [t]) := by
  rw [runEvents_edits_consumed]
  rw [List.foldl_append]
  have ht : (t != "") = true := by
    simp only [bne_iff_ne, ne_eq]
    intro he
    rw [he] at h
    simp at h
  have harm : debounceArms t = true := by simp [debounceArms, ht, h]
  simp [runEvents, editEvent, elapseEvent, harm]

/-- C5 counterexample: a rapid edit sequence whose settled text is short
fires no request at all, not exactly one. -/
theorem debounce_short_final_no_request :
    runEvents ⟨none⟩ ((["first draft", "hello"]).map DEvent.edit ++ [DEvent.elapse])
      = (⟨none⟩, []) ∧ "hello" ≠ "" := by
  constructor
  · rfl
  · decide

/-- C5 witness: two rapid edits, the second 51 characters long, yield
exactly one request for the final text. -/
theorem debounce_rapid_edits_single_request_witness :
    runEvents ⟨none⟩ ((["draft"] ++ [longDescription]).map DEvent.edit ++ [DEvent.elapse])
      = (⟨none⟩, [longDescription]) :=
  debounce_rapid_edits_single_request ⟨none⟩ ["draft"] longDescription (by decide)

/-- C6 (code bug): `analyzeCase` has no staleness guard, so when two
analysis cycles overlap and the older response arrives last, its
`setAiGuidance` continuation runs and the stale result overwrites the newer
one; moreover `isAnalyzing` is already false after the newer settle even
though the older request is still in flight. -/
theorem stale_guidance_overwrites_newer :
    (runAnalyzer ⟨none, false⟩
        [AEvent.start, AEvent.start,
         AEvent.settle (.ok secondGuidance), AEvent.settle (.ok firstGuidance)]).aiGuidance
      = some firstGuidance ∧
    firstGuidance ≠ secondGuidance ∧
    (runAnalyzer ⟨none, false⟩
        [AEvent.start, AEvent.start, AEvent.settle (.ok secondGuidance)]).isAnalyzing
      = false := by
  refine ⟨rfl, ?_, rfl⟩
  decide

/-- C7: the guidance client never throws into the wizard — unconfigured it
returns the explicit unavailable payload, a service throw (or an empty
response) is caught and converted into the fallback payload, every call
settles in an `ok` result, and the analyzer's busy flag is false after any
settle. -/
theorem analyzeCaseDescription_never_throws :
    (∀ (cfg hasClient : Bool) (oc : ServiceOutcome)
        (p : String → ParseOutcome) (d : String),
      ∃ g, analyzeCaseDescription cfg hasClient oc p d = Except.ok g) ∧
    (∀ (hasClient : Bool) (oc : ServiceOutcome) (p : String → ParseOutcome) (d : String),
      analyzeCaseDescription false hasClient oc p d = Except.ok unavailableGuidance) ∧
    (∀ (p : String → ParseOutcome) (d : String),
      analyzeCaseDescription true true ServiceOutcome.throwErr p d
        = Except.ok errorFallbackGuidance) ∧
    (∀ (p : String → ParseOutcome) (d : String),
      analyzeCaseDescription true true (ServiceOutcome.ok none) p d
        = Except.ok errorFallbackGuidance) ∧
    (∀ (st : AnalyzerState) (r : Except Unit LegalGuidance),
      (stepAnalyzer st (AEvent.settle r)).isAnalyzing = false) := by
  refine ⟨?_, ?_, ?_, ?_, ?_⟩
  · intro cfg hasClient oc p d
    cases cfg with
    | false => exact ⟨unavailableGuidance, rfl⟩
    | true =>
      cases hasClient with
      | false => exact ⟨unavailableGuidance, rfl⟩
      | true =>
        cases oc with
        | throwErr => exact ⟨errorFallbackGuidance, rfl⟩
        | ok content =>
          cases content with
          | none => exact ⟨errorFallbackGuidance, rfl⟩
          | some guidance =>
            cases hp : p guidance with
            | notJson =>
              exact ⟨⟨guidance, [], []⟩, by
                simp [analyzeCaseDescription, analyzeBody, hp]⟩
            | json e r su =>
              exact ⟨⟨e.getD "", r.getD [], su.getD []⟩, by
                simp [analyzeCaseDescription, analyzeBody, hp]⟩
  · intro hasClient oc p d; rfl
  · intro p d; rfl
  · intro p d; rfl
  · intro st r; cases r <;> rfl

/-! ### Claims about field extraction (C8) -/

lemma scanKeyword_eq_some_iff (ws : List String) (kw v : String) :
    scanKeyword ws kw = some v ↔
      ∃ i nxt, ws.findIdx? (fun w => w == kw) = some i ∧
        ws[i + 1]? = some nxt ∧ nxt ≠ "" ∧
        v = String.intercalate " " (ws.drop (i + 1)) := by
  constructor
  · intro h
    unfold scanKeyword at h
    cases h1 : ws.findIdx? (fun w => w == kw) with
    | none => rw [h1] at h; exact absurd h (by simp)
    | some i =>
      rw [h1] at h
      dsimp only at h
      cases h2 : ws[i + 1]? with
      | none => rw [h2] at h; exact absurd h (by simp)
      | some nxt =>
        rw [h2] at h
        dsimp only at h
        by_cases h3 : nxt = ""
        · rw [if_pos (by simp [h3])] at h
          exact absurd h (by simp)
        · rw [if_neg (by simp [h3])] at h
          injection h with h
          exact ⟨i, nxt, rfl, h2, h3, h.symm⟩
  · rintro ⟨i, nxt, h1, h2, h3, rfl⟩
    unfold scanKeyword
    rw [h1]
    dsimp only
    rw [h2]
    dsimp only
    rw [if_neg (by simp [h3])]

/-- C8 (amended): a field receives an update exactly when one of its
keywords occurs as a token such that the token immediately after the
keyword's (first) position exists and is non-empty, and the forwarded value
is the join of all tokens strictly after that position; fields match
independently of each other; a keyword that is the last token — or is
followed by an empty token, as consecutive spaces produce — yields no
update; the scan is a total function.  The spec's own example transcript
extracts the exact tail joins. -/
theorem extractUpdates_spec (t f v : String) :
    ((f, v) ∈ extractUpdates t ↔
      ∃ kws kw i nxt, (f, kws) ∈ fieldMappings ∧ kw ∈ kws ∧
        (tokenize t).findIdx? (fun w => w == kw) = some i ∧
        (tokenize t)[i + 1]? = some nxt ∧ nxt ≠ "" ∧
        v = String.intercalate " " ((tokenize t).drop (i + 1))) ∧
    extractUpdates "my name is Alice and my address is 12 Main Street"
      = [("name", "is alice and my address is 12 main street"),
         ("address", "is 12 main street")] := by
  constructor
  · unfold extractUpdates
    rw [List.mem_flatMap]
    constructor
    · rintro ⟨fm, hfm, hmem⟩
      rcases List.mem_filterMap.1 hmem with ⟨kw, hkw, hsome⟩
      rcases Option.map_eq_some'.1 hsome with ⟨v', hscan, heq⟩
      have hf : fm.1 = f := congrArg Prod.fst heq
      have hv : v' = v := congrArg Prod.snd heq
      rw [hv] at hscan
      rcases (scanKeyword_eq_some_iff _ _ _).1 hscan with ⟨i, nxt, hidx, hget, hne, hval⟩
      refine ⟨fm.2, kw, i, nxt, ?_, hkw, hidx, hget, hne, hval⟩
      rw [← hf]
      exact hfm
    · rintro ⟨kws, kw, i, nxt, hkmem, hkw, hidx, hget, hne, hval⟩
      refine ⟨(f, kws), hkmem, List.mem_filterMap.2 ⟨kw, hkw, ?_⟩⟩
      rw [(scanKeyword_eq_some_iff _ _ _).2 ⟨i, nxt, hidx, hget, hne, hval⟩]
      rfl
  · rfl

/-- C8 witness: the characterization instantiated on the spec's example
transcript. -/
theorem extractUpdates_spec_witness :
    extractUpdates "my name is Alice and my address is 12 Main Street"
      = [("name", "is alice and my address is 12 main street"),
         ("address", "is 12 main street")] :=
  (extractUpdates_spec "my name is Alice and my address is 12 Main Street" "name"
    "is alice and my address is 12 main street").2

/-- C8 counterexample: in `"name  alice"` (two spaces) the keyword `name`
is found at index 0 and is not the last of the three tokens, yet no update
occurs, because the token right after the keyword is the empty token the
double space produces. -/
theorem extract_empty_next_token_cex :
    extractUpdates "name  alice" = [] ∧
    (tokenize "name  alice").findIdx? (fun w => w == "name") = some 0 ∧
    (tokenize "name  alice").length = 3 := by
  refine ⟨rfl, rfl, rfl⟩

/-! ### Claims about the listen control (C9) -/

/-- C9 (amended): when the recognition handle was never constructed,
activating the listen control performs no recognition call and raises
nothing — but the observable `isListening` flag still toggles (it does not
stay unchanged). -/
theorem toggle_without_recognition (s : SpeechState)
    (h : s.hasRecognition = false) :
    toggleListening s = ({ s with isListening := !s.isListening }, []) := by
  simp [toggleListening, h]

/-- C9 counterexample: with no recognition handle and `isListening = false`,
activating the control flips the observable listening state to `true`
(while making no recognition call), so the state does not remain
unchanged. -/
theorem toggle_without_recognition_flips_cex :
    toggleListening ⟨false, false⟩ = (⟨true, false⟩, []) ∧
    (SpeechState.mk false false).isListening ≠
      (toggleListening ⟨false, false⟩).1.isListening := by
  refine ⟨rfl, by decide⟩

/-- C9 witness: the amended statement at a concrete state. -/
theorem toggle_without_recognition_witness :
    toggleListening ⟨true, false⟩ = (⟨false, false⟩, []) :=
  toggle_without_recognition ⟨true, false⟩ rfl

/-! ### Claims about the upload size gate (C10) -/

/-- C10: a chosen or dropped file reaches the field-update callback iff its
size is at most `10 * 1024 * 1024` bytes; an oversized file leaves the form
state unchanged, an accepted one lands in the form values via the ordinary
field update. -/
theorem fileUpload_size_gate (s : AppState) (id : String) (f : FileV)
    (rest : List FileV) :
    ((handleDrop (f :: rest) = some f) ↔ f.size ≤ maxFileSize) ∧
    ((handleFileChange (some f) = some f) ↔ f.size ≤ maxFileSize) ∧
    (maxFileSize < f.size →
      processDrop s id (f :: rest) = s ∧ processFileChange s id (some f) = s) ∧
    (f.size ≤ maxFileSize →
      processDrop s id (f :: rest) = handleInputChange s id (.file f.name f.size) ∧
      processFileChange s id (some f) = handleInputChange s id (.file f.name f.size)) ∧
    handleDrop [] = none ∧ handleFileChange none = none := by
  by_cases h : f.size ≤ maxFileSize
  · refine ⟨by simp [handleDrop, h], by simp [handleFileChange, h], ?_, ?_, rfl, rfl⟩
    · intro hlt
      exact absurd h (by omega)
    · intro _
      exact ⟨by simp [processDrop, handleDrop, h],
        by simp [processFileChange, handleFileChange, h]⟩
  · refine ⟨by simp [handleDrop, h], by simp [handleFileChange, h], ?_, ?_, rfl, rfl⟩
    · intro _
      exact ⟨by simp [processDrop, handleDrop, h],
        by simp [processFileChange, handleFileChange, h]⟩
    · intro hle
      exact absurd hle h

/-- C10 witness: an 10485761-byte file (one byte over the limit) produces
no field update. -/
theorem fileUpload_size_gate_witness :
    processDrop ⟨[], 0, [], initialStatus "t0"⟩ "idProof" [⟨"big.pdf", 10485761⟩]
      = ⟨[], 0, [], initialStatus "t0"⟩ ∧
    processFileChange ⟨[], 0, [], initialStatus "t0"⟩ "idProof" (some ⟨"big.pdf", 10485761⟩)
      = ⟨[], 0, [], initialStatus "t0"⟩ :=
  (fileUpload_size_gate ⟨[], 0, [], initialStatus "t0"⟩ "idProof"
    ⟨"big.pdf", 10485761⟩ []).2.2.1 (by decide)

end Legal
